import Mathlib

/-!
# Verification of the WaveController sawtooth synthesizer (src/main.cpp)

Shallow embedding of the program's core logic in Lean 4.  C `float`
arithmetic is embedded as exact rational arithmetic over `ℚ`; C integers
as `ℤ`/`ℕ`.  The ring buffer (`std::vector<float> waveBuffer` together
with `int bufferIndex`) is embedded as a function `Nat → ℚ` plus a
cursor.  The mutex-protected callback is embedded sequentially (the lock
makes the whole block atomic); for the lock-scope analysis a separate
event-trace embedding of the callback records where the lock is acquired
and released.
-/

/-- `SAMPLE_RATE` from src/main.cpp line 15. -/
def SAMPLE_RATE : ℚ := 44100

/-- `WAVE_SAMPLES` (ring-buffer capacity) from src/main.cpp line 21. -/
def WAVE_SAMPLES : Nat := 800

/-- `KNOB_RADIUS` from src/main.cpp line 22. -/
def KNOB_RADIUS : ℚ := 30

/-- C truncation toward zero, as used by `fmod`: for `x ≥ 0` it is the
floor, for `x < 0` the ceiling. -/
def ctrunc (x : ℚ) : ℤ := if 0 ≤ x then ⌊x⌋ else ⌈x⌉

/-- C `fmod(x, y)` (for `y ≠ 0`): `x - trunc(x/y) * y`.  The code calls
`fmod(data->phase + data->phaseOffset, 1.0f)` at src/main.cpp line 169. -/
def cfmod (x y : ℚ) : ℚ := x - (ctrunc (x / y) : ℚ) * y

/-- `adjustedPhase` computation of the audio callback, src/main.cpp
lines 169-170: `fmod(phase + phaseOffset, 1.0f)`, then add `1.0` when the
result is negative. -/
def adjustedPhase (phase phaseOffset : ℚ) : ℚ :=
  let m := cfmod (phase + phaseOffset) 1
  if m < 0 then m + 1 else m

/-- The sawtooth sample of src/main.cpp line 173:
`(2.0f * adjustedPhase - 1.0f) * amplitude`. -/
def sawtoothSample (phase phaseOffset amplitude : ℚ) : ℚ :=
  (2 * adjustedPhase phase phaseOffset - 1) * amplitude

/-- Phase advance of the audio callback, src/main.cpp lines 184-187:
add `frequency / SAMPLE_RATE`, then subtract `1.0` once when the result
is `≥ 1.0`. -/
def phaseStep (frequency phase : ℚ) : ℚ :=
  let p := phase + frequency / SAMPLE_RATE
  if 1 ≤ p then p - 1 else p

/-- `n` successive phase-advance steps at a fixed frequency. -/
def phaseIter (frequency : ℚ) : Nat → ℚ → ℚ
  | 0, p => p
  | n + 1, p => phaseIter frequency n (phaseStep frequency p)

-- Helper lemmas about the fractional-part computation.

theorem ctrunc_of_nonneg {x : ℚ} (hx : 0 ≤ x) : ctrunc x = ⌊x⌋ := by
  simp [ctrunc, hx]

theorem cfmod_one_of_nonneg {x : ℚ} (hx : 0 ≤ x) :
    cfmod x 1 = Int.fract x := by
  rw [cfmod, Int.fract, div_one, ctrunc_of_nonneg hx, mul_one]

theorem adjustedPhase_eq_fract {p o : ℚ} (hp : 0 ≤ p) (ho : 0 ≤ o) :
    adjustedPhase p o = Int.fract (p + o) := by
  have hpo : (0 : ℚ) ≤ p + o := by linarith
  have hm : cfmod (p + o) 1 = Int.fract (p + o) := cfmod_one_of_nonneg hpo
  have hnn : ¬ Int.fract (p + o) < 0 := not_lt.mpr (Int.fract_nonneg _)
  simp [adjustedPhase, hm, hnn]

/-- C1: for phase `p ∈ [0,1)`, offset `o ∈ [0,1)` and amplitude `a ≥ 0`
(the data model constrains amplitude to `[0,1]`), the generator's
`adjustedPhase` lies in `[0,1)`, the sample equals
`(2·frac(p+o) − 1)·a` with `frac` the fractional part, and the sample
lies in `[−a, a]`. -/
theorem sawtooth_sample_spec (p o a : ℚ)
    (hp0 : 0 ≤ p) (hp1 : p < 1) (ho0 : 0 ≤ o) (ho1 : o < 1) (ha : 0 ≤ a) :
    0 ≤ adjustedPhase p o ∧ adjustedPhase p o < 1 ∧
    sawtoothSample p o a = (2 * Int.fract (p + o) - 1) * a ∧
    -a ≤ sawtoothSample p o a ∧ sawtoothSample p o a ≤ a := by
  have hfr := adjustedPhase_eq_fract hp0 ho0
  have h0 : 0 ≤ adjustedPhase p o := hfr ▸ Int.fract_nonneg (p + o)
  have h1 : adjustedPhase p o < 1 := hfr ▸ Int.fract_lt_one (p + o)
  refine ⟨h0, h1, by rw [sawtoothSample, hfr], ?_, ?_⟩
  · have : (-1 : ℚ) ≤ 2 * adjustedPhase p o - 1 := by linarith
    calc -a = (-1) * a := by ring
    _ ≤ (2 * adjustedPhase p o - 1) * a := by
        exact mul_le_mul_of_nonneg_right this ha
    _ = sawtoothSample p o a := rfl
  · have : 2 * adjustedPhase p o - 1 ≤ 1 := by linarith
    calc sawtoothSample p o a = (2 * adjustedPhase p o - 1) * a := rfl
    _ ≤ 1 * a := mul_le_mul_of_nonneg_right this ha
    _ = a := one_mul a

/-- Witness for C1 at `p = 1/2`, `o = 3/4`, `a = 3/10`
(the program's defaults are `phaseOffset = 0`, `amplitude = 0.3`). -/
theorem sawtooth_sample_spec_witness :
    0 ≤ adjustedPhase (1/2) (3/4) ∧ adjustedPhase (1/2) (3/4) < 1 ∧
    sawtoothSample (1/2) (3/4) (3/10)
      = (2 * Int.fract ((1:ℚ)/2 + 3/4) - 1) * (3/10) ∧
    -(3/10 : ℚ) ≤ sawtoothSample (1/2) (3/4) (3/10) ∧
    sawtoothSample (1/2) (3/4) (3/10) ≤ 3/10 :=
  sawtooth_sample_spec (1/2) (3/4) (3/10)
    (by norm_num) (by norm_num) (by norm_num) (by norm_num) (by norm_num)

theorem phaseStep_mem {f p : ℚ} (hf0 : 0 < f) (hf1 : f < SAMPLE_RATE)
    (hp0 : 0 ≤ p) (hp1 : p < 1) :
    0 ≤ phaseStep f p ∧ phaseStep f p < 1 := by
  have hd0 : 0 < f / SAMPLE_RATE := by
    apply div_pos hf0
    norm_num [SAMPLE_RATE]
  have hd1 : f / SAMPLE_RATE < 1 := by
    rw [div_lt_one (by norm_num [SAMPLE_RATE])]
    exact hf1
  rw [phaseStep]
  by_cases h : (1 : ℚ) ≤ p + f / SAMPLE_RATE
  · simp only [h, if_pos]
    constructor <;> linarith
  · simp only [h, if_neg, not_false_iff]
    constructor <;> [linarith; linarith [lt_of_not_le h]]

/-- C2: for any frequency `f` with `0 < f < 44100` and any starting phase
in `[0,1)`, the phase remains in `[0,1)` after any number of
phase-advance steps (add `f/SAMPLE_RATE`, subtract `1.0` once when
`≥ 1.0`). -/
theorem phase_invariant (f p : ℚ) (n : Nat)
    (hf0 : 0 < f) (hf1 : f < SAMPLE_RATE) (hp0 : 0 ≤ p) (hp1 : p < 1) :
    0 ≤ phaseIter f n p ∧ phaseIter f n p < 1 := by
  induction n generalizing p with
  | zero => exact ⟨hp0, hp1⟩
  | succ k ih =>
    have hs := phaseStep_mem hf0 hf1 hp0 hp1
    exact ih (phaseStep f p) hs.1 hs.2

/-- Witness for C2 at the default frequency `440`, phase `0`, `100` steps. -/
theorem phase_invariant_witness :
    0 ≤ phaseIter 440 100 0 ∧ phaseIter 440 100 0 < 1 :=
  phase_invariant 440 0 100 (by norm_num) (by norm_num [SAMPLE_RATE])
    (le_refl 0) (by norm_num)

/-- The ring buffer of `SawtoothData`: `waveBuffer` (capacity
`WAVE_SAMPLES`) plus the write cursor `bufferIndex`, src/main.cpp
lines 147-148. -/
structure RingState where
  waveBuffer : Nat → ℚ
  bufferIndex : Nat

/-- Ring-buffer part of the `SawtoothData` constructor, src/main.cpp
lines 151-152: buffer of `WAVE_SAMPLES` zeros, cursor `0`. -/
def initRing : RingState :=
  { waveBuffer := fun _ => 0, bufferIndex := 0 }

/-- One ring-buffer write, src/main.cpp lines 176-177: store the sample
at the cursor, advance the cursor modulo `WAVE_SAMPLES`. -/
def ringWrite (r : RingState) (s : ℚ) : RingState :=
  { waveBuffer := Function.update r.waveBuffer r.bufferIndex s,
    bufferIndex := (r.bufferIndex + 1) % WAVE_SAMPLES }

/-- Write a list of samples in order (oldest first). -/
def ringWriteAll (r : RingState) : List ℚ → RingState
  | [] => r
  | s :: rest => ringWriteAll (ringWrite r s) rest

/-- The visualization read of `drawWaveform`, src/main.cpp lines 202-207:
the `i`-th displayed sample is read at `(bufferIndex + i) % WAVE_SAMPLES`,
for `i = 0, …, WAVE_SAMPLES - 1`. -/
def ringSnapshot (r : RingState) : List ℚ :=
  (List.range WAVE_SAMPLES).map
    (fun i => r.waveBuffer ((r.bufferIndex + i) % WAVE_SAMPLES))

theorem ringWrite_bufferIndex_lt (r : RingState) (s : ℚ) :
    (ringWrite r s).bufferIndex < WAVE_SAMPLES :=
  Nat.mod_lt _ (by norm_num [WAVE_SAMPLES])

theorem ringWriteAll_bufferIndex (L : List ℚ) (r : RingState)
    (hr : r.bufferIndex < WAVE_SAMPLES) :
    (ringWriteAll r L).bufferIndex
      = (r.bufferIndex + L.length) % WAVE_SAMPLES := by
  induction L generalizing r with
  | nil => simpa [ringWriteAll] using (Nat.mod_eq_of_lt hr).symm
  | cons s rest ih =>
    rw [ringWriteAll, ih (ringWrite r s) (ringWrite_bufferIndex_lt r s)]
    show ((r.bufferIndex + 1) % WAVE_SAMPLES + rest.length) % WAVE_SAMPLES
      = (r.bufferIndex + (s :: rest).length) % WAVE_SAMPLES
    rw [Nat.mod_add_mod, List.length_cons]
    congr 1
    omega

theorem ringWriteAll_untouched (L : List ℚ) (r : RingState) (j : Nat)
    (hr : r.bufferIndex < WAVE_SAMPLES)
    (hj : ∀ k, k < L.length → j ≠ (r.bufferIndex + k) % WAVE_SAMPLES) :
    (ringWriteAll r L).waveBuffer j = r.waveBuffer j := by
  induction L generalizing r with
  | nil => rfl
  | cons s rest ih =>
    rw [ringWriteAll]
    have hstep : ∀ k, k < rest.length →
        j ≠ ((ringWrite r s).bufferIndex + k) % WAVE_SAMPLES := by
      intro k hk
      show j ≠ ((r.bufferIndex + 1) % WAVE_SAMPLES + k) % WAVE_SAMPLES
      rw [Nat.mod_add_mod]
      have harith : r.bufferIndex + 1 + k = r.bufferIndex + (k + 1) := by omega
      rw [harith]
      exact hj (k + 1) (by simpa using Nat.succ_lt_succ hk)
    rw [ih (ringWrite r s) (ringWrite_bufferIndex_lt r s) hstep]
    have hne : j ≠ r.bufferIndex := by
      have := hj 0 (by simp)
      simpa [Nat.mod_eq_of_lt hr] using this
    exact Function.update_noteq hne _ _

theorem ringWriteAll_read (L : List ℚ) (r : RingState)
    (hr : r.bufferIndex < WAVE_SAMPLES) (hlen : L.length ≤ WAVE_SAMPLES) :
    ∀ (i : Nat) (hi : i < L.length),
      (ringWriteAll r L).waveBuffer ((r.bufferIndex + i) % WAVE_SAMPLES)
        = L.get ⟨i, hi⟩ := by
  induction L generalizing r with
  | nil => intro i hi; exact absurd hi (by simp)
  | cons s rest ih =>
    intro i hi
    cases i with
    | zero =>
      rw [ringWriteAll]
      have hpos : (r.bufferIndex + 0) % WAVE_SAMPLES = r.bufferIndex := by
        simpa using Nat.mod_eq_of_lt hr
      rw [hpos]
      have huntouched : (ringWriteAll (ringWrite r s) rest).waveBuffer
          r.bufferIndex = (ringWrite r s).waveBuffer r.bufferIndex := by
        apply ringWriteAll_untouched rest (ringWrite r s) r.bufferIndex
          (ringWrite_bufferIndex_lt r s)
        intro k hk
        show r.bufferIndex ≠ ((r.bufferIndex + 1) % WAVE_SAMPLES + k) % WAVE_SAMPLES
        rw [Nat.mod_add_mod]
        have hrest : rest.length ≤ WAVE_SAMPLES - 1 := by
          have := hlen
          simp only [List.length_cons] at this
          omega
        have hb : r.bufferIndex < 800 := by simpa [WAVE_SAMPLES] using hr
        have hk800 : k + 1 < 800 := by
          have : rest.length ≤ 799 := by simpa [WAVE_SAMPLES] using hrest
          omega
        show r.bufferIndex ≠ (r.bufferIndex + 1 + k) % 800
        omega
      rw [huntouched]
      show Function.update r.waveBuffer r.bufferIndex s r.bufferIndex = _
      rw [Function.update_same]
      rfl
    | succ i' =>
      rw [ringWriteAll]
      have hi' : i' < rest.length := by
        simpa [Nat.succ_lt_succ_iff] using hi
      have hpos : (r.bufferIndex + (i' + 1)) % WAVE_SAMPLES
          = ((ringWrite r s).bufferIndex + i') % WAVE_SAMPLES := by
        show _ = ((r.bufferIndex + 1) % WAVE_SAMPLES + i') % WAVE_SAMPLES
        rw [Nat.mod_add_mod]
        congr 1
        omega
      rw [hpos, ih (ringWrite r s) (ringWrite_bufferIndex_lt r s)
        (by simp only [List.length_cons] at hlen; omega) i' hi']
      rfl

/-- C5: after exactly `WAVE_SAMPLES` (800) samples are written into the
fresh ring buffer, the visualization read (starting at the write cursor,
wrapping modulo the capacity) returns exactly the written samples in
chronological order, oldest to newest — no duplicates, no gaps. -/
theorem ring_snapshot_after_capacity_writes (L : List ℚ)
    (hlen : L.length = WAVE_SAMPLES) :
    ringSnapshot (ringWriteAll initRing L) = L := by
  have hidx : (ringWriteAll initRing L).bufferIndex = 0 := by
    rw [ringWriteAll_bufferIndex L initRing (by norm_num [initRing, WAVE_SAMPLES])]
    simp [initRing, hlen]
  apply List.ext_get
  · simp [ringSnapshot, hlen]
  · intro i h1 h2
    simp only [ringSnapshot, hidx, List.get_eq_getElem, List.getElem_map,
      List.getElem_range]
    have hi : i < L.length := h2
    have := ringWriteAll_read L initRing (by norm_num [initRing, WAVE_SAMPLES])
      (le_of_eq hlen) i hi
    simpa [initRing] using this

/-- Witness for C5: writing the 800 samples `0, 1, …, 799` into the
fresh buffer and reading them back as the renderer does returns them
unchanged. -/
theorem ring_snapshot_after_capacity_writes_witness :
    ringSnapshot (ringWriteAll initRing
        ((List.range 800).map (Nat.cast : ℕ → ℚ)))
      = (List.range 800).map (Nat.cast : ℕ → ℚ) :=
  ring_snapshot_after_capacity_writes _
    (by rw [List.length_map, List.length_range]; rfl)

/-- The state mutated by the audio callback: the oscillator phase plus
the ring buffer (`SawtoothData.phase`, `waveBuffer`, `bufferIndex`). -/
structure CallbackState where
  phase : ℚ
  ring : RingState

/-- The parameter fields of `SawtoothData` read by the callback:
`frequency`, `phaseOffset`, `amplitude` (src/main.cpp lines 143-146). -/
structure Params where
  frequency : ℚ
  phaseOffset : ℚ
  amplitude : ℚ

/-- Default `SawtoothData` field values from its constructor,
src/main.cpp lines 151-152: frequency 440, phaseOffset 0, amplitude 0.3. -/
def initParams : Params :=
  { frequency := 440, phaseOffset := 0, amplitude := 3/10 }

/-- Body of the callback loop for frame index `i`, src/main.cpp
lines 167-188: compute the sample from the current phase; when
`i % 4 == 0` write it into the ring buffer (advancing the cursor);
emit the sample on both stereo channels; advance the phase.  Returns the
new state together with the frame's sample. -/
def frameStep (P : Params) (st : CallbackState) (i : Nat) :
    CallbackState × ℚ :=
  let sample := sawtoothSample st.phase P.phaseOffset P.amplitude
  let ring := if i % 4 = 0 then ringWrite st.ring sample else st.ring
  ({ phase := phaseStep P.frequency st.phase, ring := ring }, sample)

/-- One whole callback invocation over `n = framesPerBuffer` frames
(src/main.cpp line 167): run the frame body for `i = 0, …, n-1`. -/
def runBlock (P : Params) (st : CallbackState) (n : Nat) : CallbackState :=
  (List.range n).foldl (fun s i => (frameStep P s i).1) st

/-- C6: within a callback block, a frame with `i % 4 ≠ 0` leaves the
ring buffer and its cursor unchanged, and a frame with `i % 4 = 0`
writes its sample at the current cursor and advances the cursor to
`(cursor + 1) % WAVE_SAMPLES`. -/
theorem downsampled_write_discipline (P : Params) (st : CallbackState)
    (i : Nat) :
    (i % 4 ≠ 0 → (frameStep P st i).1.ring = st.ring) ∧
    (i % 4 = 0 →
      (frameStep P st i).1.ring.waveBuffer
        = Function.update st.ring.waveBuffer st.ring.bufferIndex
            (sawtoothSample st.phase P.phaseOffset P.amplitude) ∧
      (frameStep P st i).1.ring.bufferIndex
        = (st.ring.bufferIndex + 1) % WAVE_SAMPLES) := by
  constructor
  · intro h
    simp [frameStep, h]
  · intro h
    simp [frameStep, h, ringWrite]

/-- Witness for C6: with the default parameters and the fresh state,
frame `1` leaves the ring state unchanged and frame `0` advances the
cursor from `0` to `1`. -/
theorem downsampled_write_discipline_witness :
    (frameStep initParams ⟨0, initRing⟩ 1).1.ring = initRing ∧
    (frameStep initParams ⟨0, initRing⟩ 0).1.ring.bufferIndex = 1 := by
  constructor
  · exact (downsampled_write_discipline initParams ⟨0, initRing⟩ 1).1
      (by decide)
  · rw [((downsampled_write_discipline initParams ⟨0, initRing⟩ 0).2
      (by decide)).2]
    rfl

theorem frameStep_cursor_lt (P : Params) (st : CallbackState) (i : Nat)
    (h : st.ring.bufferIndex < WAVE_SAMPLES) :
    (frameStep P st i).1.ring.bufferIndex < WAVE_SAMPLES := by
  by_cases h4 : i % 4 = 0
  · show (if i % 4 = 0 then ringWrite st.ring _ else st.ring).bufferIndex
      < WAVE_SAMPLES
    rw [if_pos h4]
    exact ringWrite_bufferIndex_lt st.ring _
  · show (if i % 4 = 0 then ringWrite st.ring _ else st.ring).bufferIndex
      < WAVE_SAMPLES
    rw [if_neg h4]
    exact h

theorem foldl_frameStep_cursor_lt (P : Params) (l : List Nat)
    (st : CallbackState) (h : st.ring.bufferIndex < WAVE_SAMPLES) :
    (l.foldl (fun s i => (frameStep P s i).1) st).ring.bufferIndex
      < WAVE_SAMPLES := by
  induction l generalizing st with
  | nil => exact h
  | cons a tl ih => exact ih _ (frameStep_cursor_lt P st a h)

/-- C7: the write cursor is `0` at construction of `SawtoothData`, and
after any callback block of any length run from a state whose cursor is
in `[0, WAVE_SAMPLES)`, the cursor is again in `[0, WAVE_SAMPLES)`; the
visualization read (`ringSnapshot`) is a pure function of the state, so
reads never move the cursor at all. -/
theorem cursor_invariant :
    initRing.bufferIndex = 0 ∧
    ∀ (P : Params) (st : CallbackState) (n : Nat),
      st.ring.bufferIndex < WAVE_SAMPLES →
      (runBlock P st n).ring.bufferIndex < WAVE_SAMPLES := by
  refine ⟨rfl, ?_⟩
  intro P st n h
  exact foldl_frameStep_cursor_lt P (List.range n) st h

/-- Witness for C7: the default parameters, fresh state, a block of
`256` frames (the program's nominal block size). -/
theorem cursor_invariant_witness :
    initRing.bufferIndex = 0 ∧
    (runBlock initParams ⟨0, initRing⟩ 256).ring.bufferIndex
      < WAVE_SAMPLES :=
  ⟨cursor_invariant.1,
   cursor_invariant.2 initParams ⟨0, initRing⟩ 256 (by decide)⟩

/-- The `Knob` widget, src/main.cpp lines 25-36.  The `label` string and
the drawing code are irrelevant to interaction and omitted.  Screen
coordinates and values are embedded in `ℚ`. -/
structure Knob where
  x : ℚ
  y : ℚ
  value : ℚ
  minValue : ℚ
  maxValue : ℚ
  isDragging : Bool
  dragStartY : ℚ
  dragStartValue : ℚ

/-- The `Knob` constructor, src/main.cpp lines 34-36: stores the given
position, range and value; `isDragging` is false, `dragStartY` and
`dragStartValue` are 0. -/
def mkKnob (x y mn mx initial : ℚ) : Knob :=
  { x := x, y := y, value := initial, minValue := mn, maxValue := mx,
    isDragging := false, dragStartY := 0, dragStartValue := 0 }

/-- The hit test of `Knob::update`, src/main.cpp lines 39-43:
`sqrt(dx² + dy²) ≤ KNOB_RADIUS`.  Over the nonnegative reals this is
equivalent to `dx² + dy² ≤ KNOB_RADIUS²`, which is how we embed it
(avoiding an irrational square root). -/
def Knob.withinRadius (k : Knob) (mouseX mouseY : ℚ) : Bool :=
  decide ((mouseX - k.x) * (mouseX - k.x) + (mouseY - k.y) * (mouseY - k.y)
    ≤ KNOB_RADIUS * KNOB_RADIUS)

/-- `Knob::update`, src/main.cpp lines 38-59: engage the drag when the
pointer is down inside the hit radius and no drag is active; while
dragging with the pointer down, set
`value = dragStartValue + (dragStartY - mouseY) * (maxValue - minValue) / 100`
clamped to `[minValue, maxValue]`; release the drag when the pointer is
up. -/
def Knob.update (k : Knob) (mouseX mouseY : ℚ) (mouseDown : Bool) : Knob :=
  let k1 :=
    if mouseDown && k.withinRadius mouseX mouseY && !k.isDragging then
      { k with isDragging := true, dragStartY := mouseY,
               dragStartValue := k.value }
    else k
  if k1.isDragging then
    if mouseDown then
      let deltaY := k1.dragStartY - mouseY
      let sensitivity := (k1.maxValue - k1.minValue) / 100
      let v := k1.dragStartValue + deltaY * sensitivity
      { k1 with value := max k1.minValue (min k1.maxValue v) }
    else
      { k1 with isDragging := false }
  else k1

/-- The frequency knob of src/main.cpp line 339, placed at
`(150, WINDOW_HEIGHT - KNOB_PANEL_HEIGHT/2) = (150, 540)`, with range
`[50, 2000]` and initial value `440`, already engaged in a drag that
started at pointer height `y0` with the initial value. -/
def draggingFreqKnob (y0 : ℚ) : Knob :=
  { mkKnob 150 540 50 2000 440 with
    isDragging := true, dragStartY := y0, dragStartValue := 440 }

/-- C3: a dragging update (drag engaged, pointer still down) sets
`value = dragStartValue + (dragStartY - currentY) * (max - min) / 100`
clamped to `[min, max]`; for the frequency knob (min 50, max 2000,
drag-start value 440), moving the pointer 50 pixels up yields 1415 and
moving it 500 pixels down yields the clamped minimum 50. -/
theorem knob_drag_value (k : Knob) (mouseX mouseY : ℚ)
    (hd : k.isDragging = true) :
    (k.update mouseX mouseY true).value
      = max k.minValue (min k.maxValue
          (k.dragStartValue
            + (k.dragStartY - mouseY) * (k.maxValue - k.minValue) / 100)) ∧
    ∀ y0 : ℚ,
      ((draggingFreqKnob y0).update 150 (y0 - 50) true).value = 1415 ∧
      ((draggingFreqKnob y0).update 150 (y0 + 500) true).value = 50 := by
  constructor
  · simp [Knob.update, hd, mul_div_assoc]
  · intro y0
    constructor
    · show (Knob.update _ _ _ _).value = 1415
      rw [Knob.update]
      norm_num [draggingFreqKnob, mkKnob]
    · show (Knob.update _ _ _ _).value = 50
      rw [Knob.update]
      norm_num [draggingFreqKnob, mkKnob]

/-- Witness for C3: a dragging frequency knob whose drag started at
pointer height 540 with the pointer moved to height 490 reaches the
value 1415. -/
theorem knob_drag_value_witness :
    ((draggingFreqKnob 540).update 150 490 true).value
      = max (draggingFreqKnob 540).minValue
          (min (draggingFreqKnob 540).maxValue
            ((draggingFreqKnob 540).dragStartValue
              + ((draggingFreqKnob 540).dragStartY - 490)
                * ((draggingFreqKnob 540).maxValue
                    - (draggingFreqKnob 540).minValue) / 100)) ∧
    ((draggingFreqKnob 540).update 150 (540 - 50) true).value = 1415 ∧
    ((draggingFreqKnob 540).update 150 (540 + 500) true).value = 50 :=
  ⟨(knob_drag_value (draggingFreqKnob 540) 150 490 rfl).1,
   (knob_drag_value (draggingFreqKnob 540) 150 490 rfl).2 540⟩

/-- C8: the knob starts Idle (`isDragging = false` in the constructor);
an update takes Idle to Dragging exactly when the pointer is engaged
and within the hit radius of the knob center, and takes Dragging to
Idle exactly when the pointer engagement is false, regardless of the
pointer position; no other transitions occur. -/
theorem knob_state_machine (x y mn mx v mouseX mouseY : ℚ) (k : Knob)
    (down : Bool) :
    (mkKnob x y mn mx v).isDragging = false ∧
    (k.isDragging = false →
      ((k.update mouseX mouseY down).isDragging = true ↔
        down = true ∧ k.withinRadius mouseX mouseY = true)) ∧
    (k.isDragging = true →
      ((k.update mouseX mouseY down).isDragging = false ↔ down = false)) := by
  refine ⟨rfl, ?_, ?_⟩
  · intro h
    cases down <;> cases hw : k.withinRadius mouseX mouseY <;>
      simp [Knob.update, h, hw]
  · intro h
    cases down <;> simp [Knob.update, h]

/-- Witness for C8: the Idle frequency knob engages a drag when the
pointer presses at its center, and a dragging knob releases when the
pointer disengages. -/
theorem knob_state_machine_witness :
    (mkKnob 150 540 50 2000 440).isDragging = false ∧
    (((mkKnob 150 540 50 2000 440).update 150 540 true).isDragging = true ↔
      true = true ∧
      (mkKnob 150 540 50 2000 440).withinRadius 150 540 = true) ∧
    (((draggingFreqKnob 540).update 150 540 false).isDragging = false ↔
      false = false) :=
  ⟨(knob_state_machine 150 540 50 2000 440 150 540
      (mkKnob 150 540 50 2000 440) true).1,
   (knob_state_machine 150 540 50 2000 440 150 540
      (mkKnob 150 540 50 2000 440) true).2.1 rfl,
   (knob_state_machine 150 540 50 2000 440 150 540
      (draggingFreqKnob 540) false).2.2 rfl⟩

/-- The process-wide hand signal fed by the UDP listener:
`handX`, `handY`, `handPinch`, src/main.cpp lines 256-257. -/
structure PointerSignal where
  x : ℤ
  y : ℤ
  active : Bool
deriving DecidableEq

/-- The main loop's local mouse state: `mouseX`, `mouseY`, `mouseDown`,
src/main.cpp lines 357-358, updated from the SDL events of each
iteration. -/
structure MouseState where
  mouseX : ℤ
  mouseY : ℤ
  mouseDown : Bool
deriving DecidableEq

/-- The three knobs of the control panel. -/
structure KnobPanel where
  freqKnob : Knob
  phaseKnob : Knob
  ampKnob : Knob

/-- The knobs as created at startup, src/main.cpp lines 337-341:
frequency at (150, 540) over [50, 2000] starting at 440; phase at
(350, 540) over [0, 1] starting at 0; amplitude at (550, 540) over
[0, 1] starting at 0.3. -/
def initKnobs : KnobPanel :=
  { freqKnob := mkKnob 150 540 50 2000 440,
    phaseKnob := mkKnob 350 540 0 1 0,
    ampKnob := mkKnob 550 540 0 1 (3/10) }

/-- The knob-update loop of the main loop, src/main.cpp lines 388-404:
every knob is updated with `handX`, `handY`, `handPinch` — the local
mouse state is in scope but never passed — and the audio parameters are
then set from the knob values. -/
def knobLoopPass (hand : PointerSignal) (mouse : MouseState)
    (ks : KnobPanel) : KnobPanel × Params :=
  let ks2 : KnobPanel :=
    { freqKnob := ks.freqKnob.update (hand.x : ℚ) (hand.y : ℚ) hand.active,
      phaseKnob := ks.phaseKnob.update (hand.x : ℚ) (hand.y : ℚ) hand.active,
      ampKnob := ks.ampKnob.update (hand.x : ℚ) (hand.y : ℚ) hand.active }
  (ks2, { frequency := ks2.freqKnob.value,
          phaseOffset := ks2.phaseKnob.value,
          amplitude := ks2.ampKnob.value })

/-- The state carried across main-loop iterations that the knob loop can
see: the mouse state, the knobs and the audio parameters. -/
structure LoopState where
  mouse : MouseState
  knobs : KnobPanel
  params : Params

/-- One iteration of the main loop, src/main.cpp lines 360-447:
`mouseInput` is the local mouse state after this iteration's SDL event
processing; the knob loop then runs with the current hand signal. -/
def loopIteration (hand : PointerSignal) (mouseInput : MouseState)
    (st : LoopState) : LoopState :=
  { mouse := mouseInput,
    knobs := (knobLoopPass hand mouseInput st.knobs).1,
    params := (knobLoopPass hand mouseInput st.knobs).2 }

/-- A run of the main loop over a sequence of per-iteration inputs
(hand signal, mouse state). -/
def runLoop (inputs : List (PointerSignal × MouseState))
    (st : LoopState) : LoopState :=
  inputs.foldl (fun s inp => loopIteration inp.1 inp.2 s) st

theorem knobLoopPass_mouse_irrelevant (hand : PointerSignal)
    (m1 m2 : MouseState) (ks : KnobPanel) :
    knobLoopPass hand m1 ks = knobLoopPass hand m2 ks := rfl

theorem runLoop_cons (a : PointerSignal × MouseState)
    (l : List (PointerSignal × MouseState)) (st : LoopState) :
    runLoop (a :: l) st = runLoop l (loopIteration a.1 a.2 st) := rfl

theorem runLoop_hand_only (inputs1 inputs2 : List (PointerSignal × MouseState))
    (st1 st2 : LoopState)
    (h : inputs1.map Prod.fst = inputs2.map Prod.fst)
    (hk : st1.knobs = st2.knobs) (hp : st1.params = st2.params) :
    (runLoop inputs1 st1).knobs = (runLoop inputs2 st2).knobs ∧
    (runLoop inputs1 st1).params = (runLoop inputs2 st2).params := by
  induction inputs1 generalizing inputs2 st1 st2 with
  | nil =>
    cases inputs2 with
    | nil => exact ⟨hk, hp⟩
    | cons b tl2 => exact absurd h (by simp)
  | cons a tl ih =>
    cases inputs2 with
    | nil => exact absurd h (by simp)
    | cons b tl2 =>
      have hpair : a.1 = b.1 ∧ tl.map Prod.fst = tl2.map Prod.fst := by
        simpa using h
      rw [runLoop_cons, runLoop_cons]
      apply ih tl2 _ _ hpair.2
      · show (knobLoopPass a.1 a.2 st1.knobs).1
          = (knobLoopPass b.1 b.2 st2.knobs).1
        rw [hpair.1, hk, knobLoopPass_mouse_irrelevant b.1 a.2 b.2]
      · show (knobLoopPass a.1 a.2 st1.knobs).2
          = (knobLoopPass b.1 b.2 st2.knobs).2
        rw [hpair.1, hk, knobLoopPass_mouse_irrelevant b.1 a.2 b.2]

/-- C9: the knob values — and hence the audio parameters frequency,
phase offset and amplitude — are a function of the hand signal alone:
two main-loop runs that agree on the per-iteration hand signals but
have arbitrarily different mouse positions and button states produce
identical knobs and identical audio parameters. -/
theorem knob_values_hand_noninterference
    (inputs1 inputs2 : List (PointerSignal × MouseState)) (st : LoopState)
    (h : inputs1.map Prod.fst = inputs2.map Prod.fst) :
    (runLoop inputs1 st).knobs = (runLoop inputs2 st).knobs ∧
    (runLoop inputs1 st).params = (runLoop inputs2 st).params :=
  runLoop_hand_only inputs1 inputs2 st st h rfl rfl

/-- Witness for C9: one iteration with an engaged hand press on the
frequency knob; the mouse is idle in one run and pressing elsewhere in
the other. -/
theorem knob_values_hand_noninterference_witness :
    (runLoop [(⟨150, 540, true⟩, ⟨0, 0, false⟩)]
        ⟨⟨0, 0, false⟩, initKnobs, initParams⟩).knobs
      = (runLoop [(⟨150, 540, true⟩, ⟨999, 20, true⟩)]
        ⟨⟨0, 0, false⟩, initKnobs, initParams⟩).knobs ∧
    (runLoop [(⟨150, 540, true⟩, ⟨0, 0, false⟩)]
        ⟨⟨0, 0, false⟩, initKnobs, initParams⟩).params
      = (runLoop [(⟨150, 540, true⟩, ⟨999, 20, true⟩)]
        ⟨⟨0, 0, false⟩, initKnobs, initParams⟩).params :=
  knob_values_hand_noninterference
    [(⟨150, 540, true⟩, ⟨0, 0, false⟩)]
    [(⟨150, 540, true⟩, ⟨999, 20, true⟩)]
    ⟨⟨0, 0, false⟩, initKnobs, initParams⟩ rfl

/-- Whitespace skipped by a `%d` conversion of `sscanf` (C `isspace`). -/
def isSpaceChar (c : Char) : Bool :=
  c = ' ' || c = '\t' || c = '\n' || c = '\r' || c = '\x0b' || c = '\x0c'

/-- Decimal digit test. -/
def isDigitChar (c : Char) : Bool :=
  decide ('0' ≤ c ∧ c ≤ '9')

def skipSpaces : List Char → List Char
  | [] => []
  | c :: rest => if isSpaceChar c then skipSpaces rest else c :: rest

/-- Consume a maximal run of decimal digits, returning their values and
the remaining input. -/
def takeDigits : List Char → List ℕ × List Char
  | [] => ([], [])
  | c :: rest =>
    if isDigitChar c then
      ((c.toNat - '0'.toNat) :: (takeDigits rest).1, (takeDigits rest).2)
    else ([], c :: rest)

/-- Value of a (most-significant-first) digit list. -/
def digitsVal (ds : List ℕ) : ℕ :=
  ds.foldl (fun acc d => 10 * acc + d) 0

/-- A `%d` conversion of `sscanf`: skip whitespace, read an optional
sign and at least one digit; fail (no assignment) otherwise. -/
def scanInt (cs : List Char) : Option (ℤ × List Char) :=
  match skipSpaces cs with
  | '-' :: rest =>
    if (takeDigits rest).1.isEmpty then none
    else some (-(digitsVal (takeDigits rest).1 : ℤ), (takeDigits rest).2)
  | '+' :: rest =>
    if (takeDigits rest).1.isEmpty then none
    else some ((digitsVal (takeDigits rest).1 : ℤ), (takeDigits rest).2)
  | other =>
    if (takeDigits other).1.isEmpty then none
    else some ((digitsVal (takeDigits other).1 : ℤ), (takeDigits other).2)

/-- `sscanf(buf, "%d,%d,%d", &x, &y, &pinch)` of src/main.cpp line 272:
returns the number of conversions assigned together with the three
values.  The code declares `int x, y, pinch = 0;` and reads `x`, `y`
only when the count is at least 2, and `pinch` keeps its initial `0`
when the third conversion is not reached; unassigned slots are reported
here as their pre-call values (`0`). -/
def scanPacket (s : String) : ℕ × ℤ × ℤ × ℤ :=
  match scanInt s.data with
  | none => (0, 0, 0, 0)
  | some (x, r1) =>
    match r1 with
    | ',' :: r2 =>
      match scanInt r2 with
      | none => (1, x, 0, 0)
      | some (y, r3) =>
        match r3 with
        | ',' :: r4 =>
          match scanInt r4 with
          | none => (2, x, y, 0)
          | some (p, _) => (3, x, y, p)
        | _ => (2, x, y, 0)
    | _ => (1, x, 0, 0)

/-- The per-datagram update of the UDP listener, src/main.cpp
lines 271-276: when `sscanf` assigns at least `x` and `y`, store them
into the hand signal with `handPinch = (pinch == 1)`; otherwise leave
the signal untouched. -/
def udpStep (sig : PointerSignal) (pkt : String) : PointerSignal :=
  if 2 ≤ (scanPacket pkt).1 then
    { x := (scanPacket pkt).2.1,
      y := (scanPacket pkt).2.2.1,
      active := decide ((scanPacket pkt).2.2.2 = 1) }
  else sig

/-- C4: the datagram `"100,200,1"` sets the hand signal to
`{x 100, y 200, active}`; a datagram from which `x` and `y` cannot both
be parsed (such as `"garbage"`) leaves the signal completely unchanged;
and `"10,20"` sets `x 10`, `y 20` with `active = false` (the absent
pinch field defaults to not-engaged). -/
theorem udp_packet_handling (sig : PointerSignal) (pkt : String) :
    udpStep sig "100,200,1" = { x := 100, y := 200, active := true } ∧
    udpStep sig "garbage" = sig ∧
    udpStep sig "10,20" = { x := 10, y := 20, active := false } ∧
    ((scanPacket pkt).1 < 2 → udpStep sig pkt = sig) := by
  refine ⟨?_, ?_, ?_, ?_⟩
  · rfl
  · rfl
  · rfl
  · intro h
    show (if 2 ≤ (scanPacket pkt).1 then _ else sig) = sig
    exact if_neg (by omega)

/-- Witness for C4: the malformed datagram `"garbage"` assigns fewer
than two conversions and leaves the signal `{x 7, y 8, active}`
unchanged. -/
theorem udp_packet_handling_witness :
    udpStep ⟨7, 8, true⟩ "garbage" = ⟨7, 8, true⟩ :=
  (udp_packet_handling ⟨7, 8, true⟩ "garbage").2.2.2 (by decide)

/-- The atomic actions of one `sawtoothCallback` invocation, in program
order, for the mutex-scope analysis. -/
inductive CallbackAction where
  | acquireLock
  | releaseLock
  | computeSample
  | ringStore
  | outputStore
  | phaseAdvance
deriving DecidableEq

/-- Actions of the loop body for frame `i`, src/main.cpp lines 167-188:
compute the sample; when `i % 4 == 0` store it into the ring buffer
(this single action covers the buffer write and the cursor increment of
lines 176-177); store the sample into both output channels; advance the
phase. -/
def frameActions (i : Nat) : List CallbackAction :=
  [CallbackAction.computeSample]
    ++ (if i % 4 = 0 then [CallbackAction.ringStore] else [])
    ++ [CallbackAction.outputStore, CallbackAction.outputStore,
        CallbackAction.phaseAdvance]

/-- The action trace of one callback invocation over `n` frames,
src/main.cpp lines 165-190: the `std::lock_guard` at line 165 acquires
`bufferMutex` before the frame loop and releases it only when the
callback returns. -/
def callbackActions (n : Nat) : List CallbackAction :=
  [CallbackAction.acquireLock]
    ++ ((List.range n).map frameActions).flatten
    ++ [CallbackAction.releaseLock]

/-- The subsequence of actions performed while the mutex is held, given
whether it is held before the first action. -/
def actionsUnderLock : List CallbackAction → Bool → List CallbackAction
  | [], _ => []
  | CallbackAction.acquireLock :: rest, _ => actionsUnderLock rest true
  | CallbackAction.releaseLock :: rest, _ => actionsUnderLock rest false
  | a :: rest, held =>
    if held then a :: actionsUnderLock rest held
    else actionsUnderLock rest held

/-- C10 counterexample: in a callback block of the program's nominal
256 frames, the mutex is not held only for the ring-buffer
write-plus-cursor-increment actions — sample computation, output stores
and phase updates all execute under the lock as well. -/
theorem lock_not_minimal :
    ¬ (∀ a ∈ actionsUnderLock (callbackActions 256) false,
        a = CallbackAction.ringStore) := by
  intro hall
  have hmem : CallbackAction.computeSample
      ∈ actionsUnderLock (callbackActions 256) false := by decide
  exact absurd (hall _ hmem) (by decide)

theorem actionsUnderLock_append_of_no_lockops
    (L rest : List CallbackAction)
    (h : ∀ a ∈ L, a ≠ CallbackAction.acquireLock ∧
      a ≠ CallbackAction.releaseLock) :
    actionsUnderLock (L ++ rest) true = L ++ actionsUnderLock rest true := by
  induction L with
  | nil => rfl
  | cons a tl ih =>
    have ha := h a (by simp)
    have htl : ∀ b ∈ tl, b ≠ CallbackAction.acquireLock ∧
        b ≠ CallbackAction.releaseLock := fun b hb => h b (by simp [hb])
    cases a <;> simp_all [actionsUnderLock]

theorem frameActions_no_lockops (i : Nat) :
    ∀ a ∈ frameActions i, a ≠ CallbackAction.acquireLock ∧
      a ≠ CallbackAction.releaseLock := by
  intro a ha
  by_cases h4 : i % 4 = 0 <;> simp [frameActions, h4] at ha <;>
    constructor <;> rintro rfl <;> simp at ha

theorem joined_frameActions_no_lockops (n : Nat) :
    ∀ a ∈ ((List.range n).map frameActions).flatten,
      a ≠ CallbackAction.acquireLock ∧ a ≠ CallbackAction.releaseLock := by
  intro a ha
  rw [List.mem_flatten] at ha
  obtain ⟨l, hl, hal⟩ := ha
  rw [List.mem_map] at hl
  obtain ⟨i, _, rfl⟩ := hl
  exact frameActions_no_lockops i a hal

/-- C10 amended: the mutex is acquired once, before the frame loop, and
released only at the end of the callback, so the whole block — every
sample computation, ring-buffer write, output store and phase update of
all `n` frames — executes while the lock is held. -/
theorem lock_held_for_whole_block (n : Nat) :
    actionsUnderLock (callbackActions n) false
      = ((List.range n).map frameActions).flatten := by
  rw [callbackActions]
  show actionsUnderLock
    (CallbackAction.acquireLock ::
      (((List.range n).map frameActions).flatten ++ [CallbackAction.releaseLock]))
    false = _
  rw [actionsUnderLock]
  rw [actionsUnderLock_append_of_no_lockops _ _
    (joined_frameActions_no_lockops n)]
  simp [actionsUnderLock]
